import Mathlib

/-!
Verification development for the HSK syllabus vocabulary pipeline.

This file gives a shallow embedding, in Lean 4, of the two core stages of the
pipeline — the Segmentation & Alignment Engine (`stage2_number.py`) and the
Resolution Engine (`stage3_enrich.py`) together with their dictionary helpers
(`cedict/matcher.py`, `cedict/disambiguation.py`, `cedict/repository.py`) —
and proves or refutes the behavioural claims about them.

Modelling conventions:
* Python `str` values are embedded as `List Char`, with all string
  operations (splitting, trimming, ordering) defined structurally so that
  concrete runs reduce inside the kernel.
* Raising `ValueError` is embedded as returning `Except.error` carrying the
  structured data that the Python error message interpolates.
* Python dicts keyed by insertion order are embedded as association lists
  with overwrite-on-insert and membership-respecting lookup.
* `unicodedata.normalize("NFC", ...)` is modelled as the identity: all inputs
  of interest (precomposed tone-marked vowels) are NFC-invariant.
* Python `str.lower` / `str.isspace` / `str.isdigit` are modelled by their
  ASCII cores (`Char.toLower`, an explicit whitespace list, `Char.isDigit`);
  the pipeline only feeds them pinyin letters, digits and separators.
-/

namespace Hsk

deriving instance DecidableEq for Except

/-- Python `str.lower`, charwise (ASCII core; tone-marked vowels are handled
by the dedicated tone tables before this is relevant). -/
def pyLower (c : Char) : Char := c.toLower

/-- Python `str.isspace`, charwise (ASCII whitespace). -/
def pyIsSpace (c : Char) : Bool :=
  c = ' ' || c = '\t' || c = '\n' || c = '\x0d' || c = '\x0b' || c = '\x0c'

/-- Characters in the CJK unified ideographs block, i.e. the Python regex
`[一-鿿]` used both by `stage2_number.CJK_RE` and
`stage3_enrich.CJK_RE`. -/
def isCJKChar (c : Char) : Bool :=
  0x4e00 ≤ c.toNat && c.toNat ≤ 0x9fff

/-- Python `str.strip()` on a character list. -/
def trimStr (s : List Char) : List Char :=
  ((s.dropWhile pyIsSpace).reverse.dropWhile pyIsSpace).reverse

/-- Python `str.rstrip()` on a character list. -/
def rtrimStr (s : List Char) : List Char :=
  (s.reverse.dropWhile pyIsSpace).reverse

/-- Split a character list on one separator character (Python `str.split(sep)`,
which keeps empty segments). -/
def splitOnChar (sep : Char) : List Char → List (List Char)
  | [] => [[]]
  | c :: rest =>
    match splitOnChar sep rest with
    | [] => if c = sep then [[], []] else [[c]]
    | part :: parts => if c = sep then [] :: part :: parts else (c :: part) :: parts

/-- Strict code-point lexicographic comparison on character lists: this is how
Python compares `str` values, used to embed `sorted(...)`. -/
def strLtB : List Char → List Char → Bool
  | [], [] => false
  | [], _ :: _ => true
  | _ :: _, [] => false
  | a :: as, b :: bs =>
    if a.toNat < b.toNat then true
    else if b.toNat < a.toNat then false
    else strLtB as bs

/-- Insert into an ascending list (used to embed Python `sorted`; all sort
sites in the source sort lists with pairwise-distinct keys, so any correct
sort for the key order agrees with Python's stable sort). -/
def insertLe (le : α → α → Bool) (x : α) : List α → List α
  | [] => [x]
  | y :: ys => if le x y then x :: y :: ys else y :: insertLe le x ys

/-- Sort a list ascending by `le` (embeds Python `sorted`). -/
def isortBy (le : α → α → Bool) : List α → List α
  | [] => []
  | x :: xs => insertLe le x (isortBy le xs)

/-- Split a character list at separator characters satisfying `p`, keeping
empty segments (composing with a non-empty filter gives Python's
argument-free `str.split()`). -/
def splitOnPredChar (p : Char → Bool) : List Char → List (List Char)
  | [] => [[]]
  | c :: rest =>
    match splitOnPredChar p rest with
    | [] => if p c then [[], []] else [[c]]
    | part :: parts => if p c then [] :: part :: parts else (c :: part) :: parts

/-- Python `str[-1].isdigit()` (false on the empty string). -/
def lastIsDigit (s : List Char) : Bool :=
  match s.getLast? with
  | some c => c.isDigit
  | none => false

/-! ## `cedict/parser.py` data model (the fields Stage 3 consumes) -/

/-- One normalized dictionary record, `parser.CedictEntry`: a word together
with one numbered pinyin token sequence and a definition string. -/
structure CedictEntry where
  word : List Char
  pinyin_tokens : List (List Char)
  definition : List Char
deriving DecidableEq, Repr

/-- `CedictEntry.pinyin_numbered`: space-joined numbered tokens. -/
def CedictEntry.pinyin_numbered (e : CedictEntry) : List Char :=
  List.intercalate [' '] e.pinyin_tokens

/-- Build a `CedictEntry` from string literals (fixture convenience). -/
def mkEntry (word : String) (tokens : List String) (definition : String) :
    CedictEntry :=
  { word := word.toList, pinyin_tokens := tokens.map String.toList,
    definition := definition.toList }

/-! ## `cedict/matcher.py` -/

/-- `matcher.CandidateGroup`: grouped CEDICT candidates sharing the same
pinyin token sequence. (This revision of the matcher has exactly the two
fields below; in particular it has no written-form/traditional field.) -/
structure CandidateGroup where
  pinyin_tokens : List (List Char)
  definition : List Char
deriving DecidableEq, Repr

/-- `CandidateGroup.pinyin_numbered` property. -/
def CandidateGroup.pinyin_numbered (g : CandidateGroup) : List Char :=
  List.intercalate [' '] g.pinyin_tokens

/-- `matcher.split_numbered_variants`: split slash-delimited numbered pinyin
into variant token tuples, dropping empty segments. -/
def split_numbered_variants (numbered : List Char) : List (List (List Char)) :=
  (splitOnChar '/' numbered).filterMap fun part =>
    let tokens := (splitOnPredChar pyIsSpace (trimStr part)).filter (· ≠ [])
    if tokens = [] then none else some tokens

/-- `matcher.tone_insensitive_tokens`: drop a trailing tone digit from each
numbered token. -/
def tone_insensitive_tokens (tokens : List (List Char)) : List (List Char) :=
  tokens.map fun token =>
    if token ≠ [] && lastIsDigit token then token.dropLast else token

/-- Accumulate one entry's definition into the `grouped_defs` dict of
`matcher.group_candidates` (insertion-ordered keys, set-of-definitions
values modelled as a dedup-on-insert list). -/
def addGroupedDef (toks : List (List Char)) (d : List Char) :
    List (List (List Char) × List (List Char)) →
      List (List (List Char) × List (List Char))
  | [] => [(toks, [d])]
  | (t, ds) :: rest =>
    if t = toks then (t, if d ∈ ds then ds else ds ++ [d]) :: rest
    else (t, ds) :: addGroupedDef toks d rest

/-- Non-strict string order derived from `strLtB` (for Python `sorted`). -/
def strLeB (a b : List Char) : Bool := ! strLtB b a

/-- Strict lexicographic order on token tuples, i.e. how Python compares
`tuple[str, ...]` values. -/
def listStrLtB : List (List Char) → List (List Char) → Bool
  | [], [] => false
  | [], _ :: _ => true
  | _ :: _, [] => false
  | a :: as, b :: bs =>
    if strLtB a b then true
    else if strLtB b a then false
    else listStrLtB as bs

/-- Key order of `matcher.group_candidates`'s final
`groups.sort(key=lambda item: (item.pinyin_tokens, item.definition))`. -/
def groupLe (a b : CandidateGroup) : Bool :=
  listStrLtB a.pinyin_tokens b.pinyin_tokens ||
    (a.pinyin_tokens = b.pinyin_tokens && strLeB a.definition b.definition)

/-- `matcher.group_candidates`: group entries by pinyin tuple, merge the
distinct non-empty definitions sorted and `" | "`-joined, then sort the
groups by `(pinyin_tokens, definition)`. -/
def group_candidates (entries : List CedictEntry) : List CandidateGroup :=
  let grouped := entries.foldl (fun acc e => addGroupedDef e.pinyin_tokens e.definition acc) []
  let groups := grouped.map fun td =>
    { pinyin_tokens := td.1,
      definition := List.intercalate " | ".toList (isortBy strLeB (td.2.filter (· ≠ []))) :
      CandidateGroup }
  isortBy groupLe groups

/-- `matcher.exact_match`: first source variant (in source order) that equals
some candidate group's token tuple. -/
def exact_match (groups : List CandidateGroup)
    (source_variants : List (List (List Char))) : Option CandidateGroup :=
  source_variants.findSome? fun variant =>
    groups.find? fun g => g.pinyin_tokens = variant

/-- `matcher.tone_insensitive_matches`: candidate groups whose tone-stripped
tokens match some source variant's tone-stripped tokens. -/
def tone_insensitive_matches (groups : List CandidateGroup)
    (source_variants : List (List (List Char))) : List CandidateGroup :=
  let source_bases := source_variants.map tone_insensitive_tokens
  groups.filter fun g => decide (tone_insensitive_tokens g.pinyin_tokens ∈ source_bases)

/-! ## `cedict/repository.py` (the parts Stage 3 consumes) -/

/-- `repository.CedictRepository` restricted to its in-memory content: the
deduplicated entry list loaded from the `.u8` file. -/
structure CedictRepository where
  entries : List CedictEntry
deriving DecidableEq, Repr

/-- `CedictRepository.entries_for_word`: entries for a word, in entry order
(`entries_by_word` groups by append order, which filtering preserves). -/
def CedictRepository.entries_for_word (repo : CedictRepository) (word : List Char) :
    List CedictEntry :=
  repo.entries.filter fun e => e.word = word

/-- `CedictRepository.entries` file access: absence of the backing file is a
fatal `FileNotFoundError`; a present file is parsed by `parse_cedict_lines`,
abstracted here as the parameter `parse` (no claim depends on the line
grammar itself, only on the existence check). -/
def cedictEntriesFromFile (file : Option α) (parse : α → List CedictEntry) :
    Except (List Char) (List CedictEntry) :=
  match file with
  | none => Except.error "CC-CEDICT file not found".toList
  | some content => Except.ok (parse content)

/-! ## `cedict/disambiguation.py` -/

/-- Overwrite-on-insert for the `mapping[(word, source)] = selected` dict. -/
def dictSet (m : List ((List Char × List Char) × List Char))
    (k : List Char × List Char) (v : List Char) :
    List ((List Char × List Char) × List Char) :=
  (m.filter fun p => p.1 ≠ k) ++ [(k, v)]

/-- Lookup in the embedded dict (`dict.get`): the most recent binding wins. -/
def dictGet (m : List ((List Char × List Char) × List Char))
    (k : List Char × List Char) : Option (List Char) :=
  (m.reverse.find? fun p => p.1 = k).map (·.2)

/-- Python `str.lstrip()` on a character list. -/
def ltrimStr (s : List Char) : List Char := s.dropWhile pyIsSpace

/-- `DisambiguationRepository.load`: `none` models a missing file (Python's
`not self.path.exists()` branch), `some raw_lines` the file's lines after
the `rstrip("\n")` read loop. Blank and `#` lines are dropped, a header row
is recognized by column names, short or partially-empty rows are skipped. -/
def disambiguation_load (file : Option (List (List Char))) :
    List ((List Char × List Char) × List Char) :=
  match file with
  | none => []
  | some raw_lines =>
    let lines := raw_lines.filter fun line =>
      trimStr line ≠ [] && ! ("#".toList.isPrefixOf (ltrimStr line))
    match lines with
    | [] => []
    | first :: restL =>
      let header_cells := (splitOnChar '\t' first).map trimStr
      let hasHeader :=
        "word".toList ∈ header_cells &&
          "source_pinyin_numbered".toList ∈ header_cells &&
          "selected_cedict_pinyin".toList ∈ header_cells
      let idx_word :=
        if hasHeader then header_cells.findIdx (· = "word".toList) else 0
      let idx_source :=
        if hasHeader then header_cells.findIdx (· = "source_pinyin_numbered".toList) else 1
      let idx_selected :=
        if hasHeader then header_cells.findIdx (· = "selected_cedict_pinyin".toList) else 2
      let data_lines := if hasHeader then restL else lines
      data_lines.foldl
        (fun mapping line =>
          let cells := (splitOnChar '\t' line).map trimStr
          if cells.length ≤ max idx_word (max idx_source idx_selected) then mapping
          else
            let word := cells.getD idx_word []
            let source := cells.getD idx_source []
            let selected := cells.getD idx_selected []
            if word = [] || source = [] || selected = [] then mapping
            else dictSet mapping (word, source) selected)
        []

/-! ## `stage3_enrich.py` -/

/-- `models.NumberedRow`: the Stage 2 row consumed by the Resolution Engine. -/
structure NumberedRow where
  word_index : List Char
  level : List Char
  word : List Char
  pinyin : List Char
  part_of_speech : List Char
  pinyin_numbered : List Char
deriving DecidableEq, Repr

/-- `stage3_enrich._Resolution`: selected candidate plus provenance branch. -/
structure Resolution where
  candidate : CandidateGroup
  branch : List Char
deriving DecidableEq, Repr

/-- `stage3_enrich._lookup_word`: strip non-Hanzi characters (sense-suffix
digits) before dictionary lookup; fall back to the raw word when the result
would be empty. -/
def lookup_word (word : List Char) : List Char :=
  let hanzi_only := word.filter fun c => isCJKChar c
  if hanzi_only = [] then word else hanzi_only

/-- The `tone_insensitive_multiple_candidates:` note text built by
`_resolve_from_repo`. -/
def multiCandidatesNote (cands : List CandidateGroup) : List Char :=
  "tone_insensitive_multiple_candidates:".toList ++
    List.intercalate ", ".toList (cands.map CandidateGroup.pinyin_numbered)

/-- `stage3_enrich._resolve_from_repo`: the staged matching waterfall for one
row against one repository. Returns `(resolution, unresolved_note,
tone_candidates)` exactly as the source does. -/
def resolve_from_repo (row : NumberedRow) (repo : CedictRepository)
    (disambiguation_map : List ((List Char × List Char) × List Char)) :
    Option Resolution × Option (List Char) × List CandidateGroup :=
  let source_variants := split_numbered_variants row.pinyin_numbered
  if source_variants = [] then (none, some "empty_source_pinyin_numbered".toList, [])
  else
    let groups := group_candidates (repo.entries_for_word (lookup_word row.word))
    if groups = [] then (none, some "no_word_entry".toList, [])
    else
      match exact_match groups source_variants with
      | some g => (some ⟨g, "exact".toList⟩, none, [])
      | none =>
        match tone_insensitive_matches groups source_variants with
        | [c] => (some ⟨c, "tone_insensitive_unique".toList⟩, none, [c])
        | [] => (none, some "no_pinyin_match".toList, [])
        | c1 :: c2 :: crest =>
          let cands := c1 :: c2 :: crest
          match dictGet disambiguation_map (row.word, row.pinyin_numbered) with
          | some selected =>
            if selected = [] then (none, some (multiCandidatesNote cands), cands)
            else
              match cands.find? (fun c => c.pinyin_numbered = selected) with
              | some c => (some ⟨c, "tone_insensitive_multi".toList⟩, none, cands)
              | none =>
                (none,
                 some ("disambiguation_selected_not_in_candidates:".toList ++ selected),
                 cands)
          | none => (none, some (multiCandidatesNote cands), cands)

/-- Notes that make `enrich_with_cedict` rerun the waterfall against the
patch dictionary (the set literal in its gating `if`). -/
def patchGateNote (note : Option (List Char)) : Prop :=
  note = some "no_word_entry".toList ∨ note = some "no_pinyin_match".toList

instance (note : Option (List Char)) : Decidable (patchGateNote note) := by
  unfold patchGateNote; infer_instance

/-- The per-row resolution step of `stage3_enrich.enrich_with_cedict`
(its lines that call `_resolve_from_repo` on the main repository and, when
the gate note allows, rerun it identically on the patch repository). The
returned triple is the row's final `(resolution, note, tone_candidates)`. -/
def resolve_row_with_patch (row : NumberedRow)
    (cedict_repo patch_repo : CedictRepository)
    (disambiguation_map : List ((List Char × List Char) × List Char)) :
    Option Resolution × Option (List Char) × List CandidateGroup :=
  let main := resolve_from_repo row cedict_repo disambiguation_map
  if main.1 = none ∧ patchGateNote main.2.1 then
    let patched := resolve_from_repo row patch_repo disambiguation_map
    match patched.1 with
    | some res => (some res, none, patched.2.2)
    | none =>
      if patchGateNote patched.2.1 then (none, main.2.1, main.2.2)
      else (none, patched.2.1.map (fun s => "patch_".toList ++ s), main.2.2)
  else main

/-! ## `stage2_number.py` -/

/-- The `TONE_MARKS` table: tone-marked letter to (base letter, tone). -/
def TONE_MARKS (c : Char) : Option (Char × Nat) :=
  match c with
  | 'ā' => some ('a', 1)
  | 'á' => some ('a', 2)
  | 'ǎ' => some ('a', 3)
  | 'à' => some ('a', 4)
  | 'ē' => some ('e', 1)
  | 'é' => some ('e', 2)
  | 'ě' => some ('e', 3)
  | 'è' => some ('e', 4)
  | 'ī' => some ('i', 1)
  | 'í' => some ('i', 2)
  | 'ǐ' => some ('i', 3)
  | 'ì' => some ('i', 4)
  | 'ō' => some ('o', 1)
  | 'ó' => some ('o', 2)
  | 'ǒ' => some ('o', 3)
  | 'ò' => some ('o', 4)
  | 'ū' => some ('u', 1)
  | 'ú' => some ('u', 2)
  | 'ǔ' => some ('u', 3)
  | 'ù' => some ('u', 4)
  | 'ǖ' => some ('ü', 1)
  | 'ǘ' => some ('ü', 2)
  | 'ǚ' => some ('ü', 3)
  | 'ǜ' => some ('ü', 4)
  | 'ń' => some ('n', 2)
  | 'ň' => some ('n', 3)
  | 'ǹ' => some ('n', 4)
  | 'ḿ' => some ('m', 2)
  | 'ê' => some ('e', 5)
  | 'Ê' => some ('e', 5)
  | _ => none

/-- `SEPARATOR_CHARS`: dash, slash, ASCII apostrophe (`Char.ofNat 39`),
right single quote, middle dot, bullet. -/
def SEPARATOR_CHARS : List Char := ['-', '/', Char.ofNat 39, '’', '·', '•']

/-- `PRESERVE_SEPARATORS = {"/"}`. -/
def PRESERVE_SEPARATORS : List Char := ['/']

/-- `EXTRA_VALID_SYLLABLES`: the bare-nasal interjection syllables (plus
bound `r`) that are always accepted. -/
def EXTRA_VALID_SYLLABLES : List (List Char) :=
  ["m".toList, "n".toList, "ng".toList, "hm".toList, "hng".toList, "r".toList]

/-- `_tokenize_pinyin`'s accumulator loop: `buf` is the pending token. -/
def tokenize_go (buf : List Char) : List Char → List (List Char × Bool)
  | [] => if buf = [] then [] else [(buf, false)]
  | ch :: rest =>
    if pyIsSpace ch || ch ∈ SEPARATOR_CHARS then
      (if buf = [] then [] else [(buf, false)]) ++
        (if ch ∈ PRESERVE_SEPARATORS then [([ch], true)] else []) ++
        tokenize_go [] rest
    else tokenize_go (buf ++ [ch]) rest

/-- `stage2_number._tokenize_pinyin`: split pinyin into `(token, is_separator)`
pairs; `/` is preserved, other separators and whitespace are boundaries. -/
def tokenize_pinyin (pinyin : List Char) : List (List Char × Bool) :=
  tokenize_go [] pinyin

/-- One character of `parse_token` inside `_segment_pinyin_with_hanzi` (and of
the normalization loops in `pinyin_numbered` and `_pinyin_numbered_basic`):
tone-marked letters map to (base, tone), `v` maps to `ü`, everything else is
lowercased with tone mark 0. The trailing `.lower()` on the joined base is
applied charwise. -/
def parse_token_char (ch : Char) : Char × Nat :=
  match TONE_MARKS ch with
  | some bt => (pyLower bt.1, bt.2)
  | none => if pyLower ch = 'v' then ('ü', 0) else (pyLower ch, 0)

/-- `parse_token`: the token's per-character (base letter, tone mark) pairs
(the Python code returns the base string and the tone list separately; they
always have equal length, so the paired form is equivalent and makes the
defensive base/tone length check unrepresentable). -/
def parse_token (token : List Char) : List (Char × Nat) :=
  token.map parse_token_char

/-- The tone-free letters of one token (the `normalized_parts` loop bodies in
`pinyin_numbered` and `_pinyin_numbered_basic`). -/
def normalize_token (token : List Char) : List Char :=
  (parse_token token).map Prod.fst

/-- `stage2_number._extract_hanzi_chars`. -/
def extract_hanzi_chars (word : List Char) : List Char :=
  word.filter isCJKChar

/-- The read-only context `_segment_pinyin_with_hanzi` consumes: the syllable
inventory `VALID_SYLLABLES` (built from the pypinyin lexicon, here a
parameter, in its length-descending order) and the two repository indices. -/
structure SegmentContext where
  valid_syllables : List (List Char)
  hanzi_map : List (Char × List (List Char))
  word_map : List (List Char × List (List (List Char)))
deriving Repr

/-- `hanzi_syllable_map` lookup (`char in hanzi_map` / `hanzi_map[char]`). -/
def hanziLookup (ctx : SegmentContext) (c : Char) : Option (List (List Char)) :=
  (ctx.hanzi_map.find? fun p => p.1 = c).map (·.2)

/-- `allowed[char]` of `_segment_pinyin_with_hanzi` (the caller guarantees the
character is present in the map, so the `[]` default is never exercised on
the paths the theorems speak about). -/
def allowedSyllables (ctx : SegmentContext) (c : Char) : List (List Char) :=
  (hanziLookup ctx c).getD []

/-- `allowed_bases[char]`: the allowed syllables with the tone digit
(`syllable[:-1]`) removed. -/
def allowedBases (ctx : SegmentContext) (c : Char) : List (List Char) :=
  (allowedSyllables ctx c).map fun s => s.dropLast

/-- `word_syllable_map` lookup. -/
def wordLookup (ctx : SegmentContext) (w : List Char) : Option (List (List (List Char))) :=
  (ctx.word_map.find? fun p => p.1 = w).map (·.2)

/-- Render a tone as its digit character (tones are always 1–5). -/
def toneChar : Nat → Char
  | 1 => '1'
  | 2 => '2'
  | 3 => '3'
  | 4 => '4'
  | 5 => '5'
  | _ => '0'

/-- The synthetic erhua syllable `"r5"`. -/
def r5syl : List Char := ['r', '5']

/-- The tone of one matched syllable from the tone marks of its letters:
`{tone for tone in marks if tone}` must have at most one element (else the
syllable is skipped / the input is malformed); empty means neutral tone 5. -/
def syllableTone (marks : List Nat) : Option Nat :=
  match (marks.filter fun t => t != 0).eraseDups with
  | [] => some 5
  | [t] => some t
  | _ => none

/-- The syllable loop of `segment_token.helper` inside
`_segment_pinyin_with_hanzi`. `recur` is the recursive call at the next
(base, character) cursor, `rem` the remaining (base letter, tone) pairs of
the current token, `c :: hs` the remaining Hanzi, and `acc` the solutions
accumulated so far (the Python `solutions` list; every append is followed by
a cutoff returning as soon as two solutions exist). -/
def segment_token_go (ctx : SegmentContext) (hanzi_chars : List Char)
    (recur : List (Char × Nat) → List Char → List (List (List Char) × List Char)) :
    List (List Char) → List (Char × Nat) → Char → List Char →
      List (List (List Char) × List Char) → List (List (List Char) × List Char)
  | [], _, _, _, acc => acc
  | s :: rest, rem, c, hs, acc =>
    if ! s.isPrefixOf (rem.map Prod.fst) then
      segment_token_go ctx hanzi_chars recur rest rem c hs acc
    else
      match syllableTone ((rem.take s.length).map Prod.snd) with
      | none => segment_token_go ctx hanzi_chars recur rest rem c hs acc
      | some tone =>
        let numbered := s ++ [toneChar tone]
        let erhuaOutcome : Option (List (List (List Char) × List Char)) :=
          if s.getLast? = some 'r' ∧ hs.head? = some '儿' then
            let base_without_r := s.dropLast
            if base_without_r ≠ [] ∧ base_without_r ∈ allowedBases ctx c ∧
                r5syl ∈ allowedSyllables ctx '儿' then
              let sub := recur (rem.drop s.length) hs.tail
              if sub ≠ [] then
                some ((acc ++ sub.map fun pr =>
                  ((base_without_r ++ [toneChar tone]) :: r5syl :: pr.1, pr.2)).take 2)
              else if acc ≠ [] then some acc
              else none
            else none
          else none
        match erhuaOutcome with
        | some out => out
        | none =>
          if s ∈ EXTRA_VALID_SYLLABLES then
            let acc2 := acc ++ (recur (rem.drop s.length) hs).map fun pr =>
              (numbered :: pr.1, pr.2)
            if 2 ≤ acc2.length then acc2.take 2
            else segment_token_go ctx hanzi_chars recur rest rem c hs acc2
          else if hanzi_chars.length = 1 ∧ s ∉ allowedBases ctx c then
            let acc2 := acc ++ (recur (rem.drop s.length) hs).map fun pr =>
              (numbered :: pr.1, pr.2)
            if 2 ≤ acc2.length then acc2.take 2
            else segment_token_go ctx hanzi_chars recur rest rem c hs acc2
          else if s ∈ allowedBases ctx c then
            let acc2 := acc ++ (recur (rem.drop s.length) hs).map fun pr =>
              (numbered :: pr.1, pr.2)
            if 2 ≤ acc2.length then acc2.take 2
            else segment_token_go ctx hanzi_chars recur rest rem c hs acc2
          else segment_token_go ctx hanzi_chars recur rest rem c hs acc

/-- Fuelled form of `segment_token.helper`: each recursive call strictly
shrinks `rem.length + hrem.length`, so fuel `rem.length + hrem.length + 1`
(supplied by `segment_token`) always suffices and the `0` case is never
reached there. The memo table is omitted: `helper` is a pure function of its
cursor pair, so memoization is semantically transparent. -/
def segment_token_f (ctx : SegmentContext) (hanzi_chars : List Char) :
    Nat → List (Char × Nat) → List Char → List (List (List Char) × List Char)
  | 0, _, _ => []
  | _ + 1, [], hrem => [([], hrem)]
  | fuel + 1, rem@(_ :: _), hrem =>
    match hrem with
    | [] => []
    | c :: hs =>
      segment_token_go ctx hanzi_chars (segment_token_f ctx hanzi_chars fuel)
        ctx.valid_syllables rem c hs []

/-- `segment_token` of `_segment_pinyin_with_hanzi`: all ways (cut off at
two) to consume the token's letters as candidate-constrained numbered
syllables, each paired with the Hanzi remaining afterwards. -/
def segment_token (ctx : SegmentContext) (hanzi_chars : List Char)
    (rem : List (Char × Nat)) (hrem : List Char) :
    List (List (List Char) × List Char) :=
  segment_token_f ctx hanzi_chars (rem.length + hrem.length + 1) rem hrem

/-- The outer token-level `helper` of `_segment_pinyin_with_hanzi`: complete
solutions (cut off at two) aligning all remaining tokens to all remaining
Hanzi. -/
def align_tokens (ctx : SegmentContext) (hanzi_chars : List Char) :
    List (List Char) → List Char → List (List (List Char))
  | [], hrem => if hrem = [] then [[]] else []
  | token :: rest, hrem =>
    let pairs := parse_token token
    if pairs = [] then []
    else
      ((segment_token ctx hanzi_chars pairs hrem).flatMap fun pr =>
        (align_tokens ctx hanzi_chars rest pr.2).map fun r => pr.1 ++ r).take 2

/-- The row-fatal errors of `_segment_pinyin_with_hanzi`, carrying the data
its `ValueError` messages interpolate. -/
inductive SegmentError where
  | unalignable : List Char → SegmentError
  | ambiguous : List (List (List Char)) → SegmentError
deriving DecidableEq, Repr

/-- `stage2_number._segment_pinyin_with_hanzi`: run the aligned search, then
disambiguate a multiple-solution outcome tone-insensitively through
`word_syllable_map`, failing if not exactly one solution results. -/
def segment_pinyin_with_hanzi (ctx : SegmentContext) (tokens : List (List Char))
    (hanzi_chars : List Char) : Except SegmentError (List (List Char)) :=
  match align_tokens ctx hanzi_chars tokens hanzi_chars with
  | [] => .error (.unalignable hanzi_chars)
  | [s] => .ok s
  | s1 :: s2 :: srest =>
    let solutions := s1 :: s2 :: srest
    match wordLookup ctx hanzi_chars with
    | some cands =>
      if cands = [] then .error (.ambiguous solutions)
      else
        let candidate_bases := cands.map fun seq => seq.map fun syl => syl.dropLast
        let filtered := solutions.filter fun sol =>
          decide ((sol.map fun syl => syl.dropLast) ∈ candidate_bases)
        match filtered with
        | [f] => .ok f
        | [] => .error (.ambiguous solutions)
        | f1 :: f2 :: frest => .error (.ambiguous (f1 :: f2 :: frest))
    | none => .error (.ambiguous solutions)

/-- The row-fatal errors of Stage 2, carrying the data the `ValueError`
messages interpolate (the word-index formatting is omitted). -/
inductive Stage2Error where
  | empty_pinyin : Stage2Error
  | missing_mapping : List Char → Stage2Error
  | unsegmentable : List Char → Stage2Error
  | multiple_tone_marks : List Char → Stage2Error
  | invalid_syllable : List Char → Stage2Error
  | norm_mismatch : List Char → List Char → Stage2Error
  | seg : SegmentError → Stage2Error
deriving DecidableEq, Repr

/-- The syllable loop of `_segment_syllables.helper`: first syllable (in
inventory order) that lets the rest of the chunk segment completely. -/
def segment_syllables_go (recur : List Char → Option (List (List Char))) :
    List (List Char) → List Char → Option (List (List Char))
  | [], _ => none
  | s :: rest, rem =>
    if s.isPrefixOf rem then
      match recur (rem.drop s.length) with
      | some r => some (s :: r)
      | none => segment_syllables_go recur rest rem
    else segment_syllables_go recur rest rem

/-- Fuelled `_segment_syllables.helper` (inventory syllables are non-empty in
the source, so each recursive call shrinks the chunk and fuel
`base.length + 1` suffices). -/
def segment_syllables_f (ctx : SegmentContext) : Nat → List Char → Option (List (List Char))
  | 0, _ => none
  | _ + 1, [] => some []
  | fuel + 1, rem@(_ :: _) =>
    segment_syllables_go (segment_syllables_f ctx fuel) ctx.valid_syllables rem

/-- `stage2_number._segment_syllables`: segment a tone-free chunk into valid
syllables (returning the syllable texts; the Python boundary indices are
recoverable as their running lengths), or `none` where Python raises. -/
def segment_syllables (ctx : SegmentContext) (base : List Char) :
    Option (List (List Char)) :=
  segment_syllables_f ctx (base.length + 1) base

/-- `[a-zü]+` (`LETTER_PATTERN.fullmatch`). -/
def letterRunB (s : List Char) : Bool :=
  s ≠ [] && s.all fun c => ('a'.toNat ≤ c.toNat && c.toNat ≤ 'z'.toNat) || c = 'ü'

/-- The per-boundary numbering loop of `_pinyin_numbered_basic`: attach each
segmented syllable's tone digit, failing on conflicting tone marks. The
boundaries tile the chunk contiguously, so the Python slice
`tone_marks[start:end]` is the successive `take`/`drop`. -/
def number_chunk : List (List Char) → List (Char × Nat) → Except Stage2Error (List (List Char))
  | [], _ => .ok []
  | s :: rest, pairs =>
    match syllableTone ((pairs.take s.length).map Prod.snd) with
    | none => .error (.multiple_tone_marks s)
    | some t =>
      match number_chunk rest (pairs.drop s.length) with
      | .error e => .error e
      | .ok ns => .ok ((s ++ [toneChar t]) :: ns)

/-- The token loop of `_pinyin_numbered_basic`, returning the accumulated
`numbered_syllables`, `normalized_parts` and `output_parts`. -/
def basic_go (ctx : SegmentContext) :
    List (List Char × Bool) →
      Except Stage2Error (List (List Char) × List (List Char) × List (List Char))
  | [] => .ok ([], [], [])
  | (token, isSep) :: rest =>
    if isSep then
      match basic_go ctx rest with
      | .error e => .error e
      | .ok (numbered, normParts, outParts) => .ok (numbered, normParts, token :: outParts)
    else
      let pairs := parse_token token
      let base := pairs.map Prod.fst
      match segment_syllables ctx base with
      | none => .error (.unsegmentable base)
      | some syls =>
        match number_chunk syls pairs with
        | .error e => .error e
        | .ok chunk_syllables =>
          match basic_go ctx rest with
          | .error e => .error e
          | .ok (numbered, normParts, outParts) =>
            .ok (chunk_syllables ++ numbered, base :: normParts,
              List.intercalate [' '] chunk_syllables :: outParts)

/-- `stage2_number._pinyin_numbered_basic` up to (and including) its
round-trip and letter-pattern checks; the rendered output string is produced
by `pinyin_numbered_basic` from the returned `output_parts`. -/
def pinyin_numbered_basic_core (ctx : SegmentContext) (pinyin : List Char) :
    Except Stage2Error (List (List Char) × List (List Char) × List (List Char)) :=
  let lowered := pinyin.map pyLower
  let tokens := tokenize_pinyin lowered
  if tokens = [] then .error .empty_pinyin
  else
    match basic_go ctx tokens with
    | .error e => .error e
    | .ok (numbered, normParts, outParts) =>
      let normalized_joined := normParts.flatten
      let numbered_joined := (numbered.map fun syl => syl.dropLast).flatten
      if normalized_joined ≠ numbered_joined then
        .error (.norm_mismatch normalized_joined numbered_joined)
      else
        match numbered.find? (fun syl => ! letterRunB syl.dropLast) with
        | some syl => .error (.invalid_syllable syl)
        | none => .ok (numbered, normParts, outParts)

/-- The output-assembly loop at the end of `_pinyin_numbered_basic`: glue
chunks with single spaces, attaching a preserved `/` without surrounding
spaces. -/
def assemble_output (parts : List (List Char)) : List Char :=
  parts.foldl
    (fun output part =>
      if part = ['/'] then rtrimStr output ++ ['/']
      else
        (if output ≠ [] ∧ ¬ (output.getLast? = some ' ' ∨ output.getLast? = some '/') then
          output ++ [' ']
        else output) ++ part)
    []

/-- `stage2_number._pinyin_numbered_basic`. -/
def pinyin_numbered_basic (ctx : SegmentContext) (pinyin : List Char) :
    Except Stage2Error (List Char) :=
  match pinyin_numbered_basic_core ctx pinyin with
  | .error e => .error e
  | .ok (_, _, outParts) => .ok (trimStr (assemble_output outParts))

/-- The non-separator tokens of a pinyin chunk:
`[token for token, is_separator in _tokenize_pinyin(...) if not is_separator]`. -/
def nonsep_tokens (p : List Char) : List (List Char) :=
  (tokenize_pinyin p).filterMap fun tb => if tb.2 then none else some tb.1

/-- The per-variant body of `pinyin_numbered`'s loop: tokenize the variant,
compute its normalized letters, align it to the Hanzi, and check the
round-trip law before accepting the numbered syllables. -/
def number_variant (ctx : SegmentContext) (hanzi_chars : List Char)
    (variant : List Char) : Except Stage2Error (List (List Char)) :=
  let tokens := nonsep_tokens variant
  if tokens = [] then .error .empty_pinyin
  else
    let normalized_joined := (tokens.map normalize_token).flatten
    match segment_pinyin_with_hanzi ctx tokens hanzi_chars with
    | .error e => .error (.seg e)
    | .ok syllables =>
      let numbered_joined := (syllables.map fun syl => syl.dropLast).flatten
      if normalized_joined = numbered_joined then .ok syllables
      else .error (.norm_mismatch normalized_joined numbered_joined)

/-- `pinyin_numbered`'s variant loop: number each slash variant in order,
propagating the first failure. -/
def number_variants (ctx : SegmentContext) (hanzi_chars : List Char) :
    List (List Char) → Except Stage2Error (List (List (List Char)))
  | [] => .ok []
  | v :: vs =>
    match number_variant ctx hanzi_chars v with
    | .error e => .error e
    | .ok s =>
      match number_variants ctx hanzi_chars vs with
      | .error e => .error e
      | .ok rest => .ok (s :: rest)

/-- The slash-variant list of `pinyin_numbered`:
`[part.strip() for part in pinyin.split("/") if part.strip()]`. -/
def variants_of (lowered : List Char) : List (List Char) :=
  ((splitOnChar '/' lowered).map trimStr).filter fun v => v ≠ []

/-- `stage2_number.pinyin_numbered`: dispatch to the basic path when the word
has no Hanzi; otherwise check dictionary coverage, split into slash
variants, number each, and join with `/`. -/
def pinyin_numbered (ctx : SegmentContext) (pinyin word : List Char) :
    Except Stage2Error (List Char) :=
  let hanzi_chars := extract_hanzi_chars word
  if hanzi_chars = [] then pinyin_numbered_basic ctx pinyin
  else
    let missing := hanzi_chars.filter fun c => (hanziLookup ctx c).isNone
    if missing ≠ [] then .error (.missing_mapping missing)
    else
      let lowered := pinyin.map pyLower
      match number_variants ctx hanzi_chars (variants_of lowered) with
      | .error e => .error e
      | .ok outs =>
        .ok (trimStr (List.intercalate ['/'] (outs.map fun syls =>
          List.intercalate [' '] syls)))

/-! ## Spec-side shorthands used in theorem statements -/

/-- The candidate groups the Resolution Engine builds for a row against one
repository. -/
def groups_of (row : NumberedRow) (repo : CedictRepository) : List CandidateGroup :=
  group_candidates (repo.entries_for_word (lookup_word row.word))

/-- The tone-insensitive candidate list the Resolution Engine computes for a
row against one repository. -/
def tone_candidates_of (row : NumberedRow) (repo : CedictRepository) :
    List CandidateGroup :=
  tone_insensitive_matches (groups_of row repo)
    (split_numbered_variants row.pinyin_numbered)

/-- Whether one segmentation solution survives the tone-insensitive
whole-word filter of `_segment_pinyin_with_hanzi` (a word without a
`word_syllable_map` entry — or with a falsy empty entry — admits no
survivor, matching the code's truthiness check). -/
def survivesB (ctx : SegmentContext) (hanzi_chars : List Char)
    (sol : List (List Char)) : Bool :=
  match wordLookup ctx hanzi_chars with
  | some cands =>
    if cands = [] then false
    else decide ((sol.map fun syl => syl.dropLast) ∈
      cands.map fun seq => seq.map fun syl => syl.dropLast)
  | none => false

/-! ## Concrete fixtures (in-memory images of the repository's unit-test
dictionaries, used by witnesses and counterexamples) -/

/-- Main dictionary fixture (the parsed image of the stage-3 unit test's
`main.u8`). -/
def demoMain : CedictRepository :=
  { entries := [
      mkEntry "行" ["xing2"] "to walk",
      mkEntry "行" ["hang2"] "row; line",
      mkEntry "一" ["yi1"] "one",
      mkEntry "一" ["yi2"] "one (sandhi)",
      mkEntry "一個" ["yi1", "ge4"] "one item",
      mkEntry "一个" ["yi1", "ge4"] "one item",
      mkEntry "里" ["li3"] "inside",
      mkEntry "里" ["li3"] "interior",
      mkEntry "点" ["dian3"] "dot; point"] }

/-- Patch dictionary fixture (the parsed image of the stage-3 unit test's
`patch.u8`). -/
def demoPatch : CedictRepository :=
  { entries := [mkEntry "龘" ["da2"] "test patch entry"] }

/-- Override-table fixture resolving `(一, yi4)` to `yi1`. -/
def demoDmap : List ((List Char × List Char) × List Char) :=
  disambiguation_load (some
    ["word\tsource_pinyin_numbered\tselected_cedict_pinyin".toList,
     "一\tyi4\tyi1".toList])

/-- Override-table fixture whose selection `yi9` matches no candidate. -/
def demoBadDmap : List ((List Char × List Char) × List Char) :=
  disambiguation_load (some
    ["word\tsource_pinyin_numbered\tselected_cedict_pinyin".toList,
     "一\tyi4\tyi9".toList])

/-- A Stage 2 row whose numbered pinyin matches `行`'s `xing2` exactly. -/
def rowXing : NumberedRow :=
  { word_index := "1".toList, level := "1".toList, word := "行".toList,
    pinyin := "xíng".toList, part_of_speech := "动".toList,
    pinyin_numbered := "xing2".toList }

/-- A Stage 2 row for `一` with numbered pinyin `yi4` (tone-insensitive
multi-match against the fixture dictionary). -/
def rowYi : NumberedRow :=
  { word_index := "3".toList, level := "1".toList, word := "一".toList,
    pinyin := "yì".toList, part_of_speech := "数".toList,
    pinyin_numbered := "yi4".toList }

/-- A Stage 2 row for `龘`, absent from the main fixture dictionary and
present in the patch fixture. -/
def rowDa : NumberedRow :=
  { word_index := "4".toList, level := "1".toList, word := "龘".toList,
    pinyin := "dá".toList, part_of_speech := "名".toList,
    pinyin_numbered := "da2".toList }

/-- Segmentation context fixture mirroring the stage-2 unit-test dictionary:
a small longest-first syllable inventory and the per-character/per-word
indices the engine consults. -/
def demoCtx : SegmentContext :=
  { valid_syllables := ["shei".toList, "shui".toList, "xing".toList,
      "hang".toList, "huar".toList, "hua".toList, "ai".toList, "ba".toList,
      "ge".toList, "yi".toList, "er".toList, "r".toList],
    hanzi_map := [('爱', ["ai4".toList]), ('爸', ["ba4".toList]),
      ('谁', ["shei2".toList, "shui2".toList]),
      ('一', ["yi1".toList, "yi2".toList, "yi3".toList, "yi4".toList, "yi5".toList]),
      ('个', ["ge4".toList]), ('行', ["xing2".toList, "hang2".toList]),
      ('花', ["hua1".toList]), ('儿', ["er2".toList, "r5".toList])],
    word_map := [("爸爸".toList, [["ba4".toList, "ba5".toList]])] }

/-- Segmentation context fixture with a genuinely ambiguous alignment:
`mama` against `妈妈` splits both as `mam + a` and as `ma + ma`, and the
whole-word index keeps only the latter. -/
def ambCtx : SegmentContext :=
  { valid_syllables := ["mam".toList, "ma".toList, "a".toList],
    hanzi_map := [('妈', ["ma1".toList, "mam1".toList, "a1".toList])],
    word_map := [("妈妈".toList, [["ma1".toList, "ma1".toList]])] }

/-- The ambiguous fixture without any whole-word entry, so that no solution
survives the filter. -/
def ambCtxNoWord : SegmentContext :=
  { valid_syllables := ["mam".toList, "ma".toList, "a".toList],
    hanzi_map := [('妈', ["ma1".toList, "mam1".toList, "a1".toList])],
    word_map := [] }

/-! ## Helper lemmas about the Resolution Engine -/

lemma tone_insensitive_matches_nil_variants (groups : List CandidateGroup) :
    tone_insensitive_matches groups [] = [] := by
  simp [tone_insensitive_matches]

lemma tone_insensitive_matches_nil_groups (vs : List (List (List Char))) :
    tone_insensitive_matches [] vs = [] := rfl

/-- `exact_match` finds the first source variant that names any candidate
tuple, whenever one exists. -/
lemma exact_match_of_mem (groups : List CandidateGroup) :
    ∀ (variants : List (List (List Char))) (v : List (List Char)) (g : CandidateGroup),
      v ∈ variants → g ∈ groups → g.pinyin_tokens = v →
      ∃ gSel, exact_match groups variants = some gSel ∧ gSel ∈ groups ∧
        variants.find? (fun w => groups.any fun g0 => g0.pinyin_tokens = w)
          = some gSel.pinyin_tokens := by
  intro variants
  induction variants with
  | nil => intro v g hv; exact absurd hv (List.not_mem_nil v)
  | cons w ws ih =>
    intro v g hv hg htok
    rcases hfind : groups.find? (fun g0 => decide (g0.pinyin_tokens = w)) with _ | gSel
    · have hwno : ∀ g0 ∈ groups, ¬ g0.pinyin_tokens = w := by
        intro g0 hg0
        have := List.find?_eq_none.mp hfind g0 hg0
        simpa using this
      have hv' : v ∈ ws := by
        rcases List.mem_cons.mp hv with h | h
        · exact absurd (htok.trans h) (hwno g hg)
        · exact h
      obtain ⟨gSel, h1, h2, h3⟩ := ih v g hv' hg htok
      refine ⟨gSel, ?_, h2, ?_⟩
      · rw [exact_match] at h1 ⊢
        rw [List.findSome?_cons]
        simpa [hfind] using h1
      · rw [List.find?_cons_of_neg]
        · exact h3
        · simp only [List.any_eq_true, decide_eq_true_eq]
          push_neg
          intro g0 hg0
          exact hwno g0 hg0
    · have htokSel : gSel.pinyin_tokens = w := by
        have := List.find?_some hfind
        simpa using this
      refine ⟨gSel, ?_, List.mem_of_find?_eq_some hfind, ?_⟩
      · rw [exact_match, List.findSome?_cons]
        simp [hfind]
      · rw [List.find?_cons_of_pos, htokSel]
        simp only [List.any_eq_true, decide_eq_true_eq]
        exact ⟨gSel, List.mem_of_find?_eq_some hfind, htokSel⟩

/-- The tone-insensitive multi-match branch of `_resolve_from_repo`, as one
closed form: when no exact match exists and more than one tone-insensitive
candidate does, the outcome is decided solely by the override lookup. -/
lemma resolve_from_repo_multi_branch (row : NumberedRow) (repo : CedictRepository)
    (dmap : List ((List Char × List Char) × List Char))
    (hex : exact_match (groups_of row repo) (split_numbered_variants row.pinyin_numbered) = none)
    (hlen : 1 < (tone_candidates_of row repo).length) :
    resolve_from_repo row repo dmap =
      (match dictGet dmap (row.word, row.pinyin_numbered) with
       | some selected =>
         if selected = [] then
           (none, some (multiCandidatesNote (tone_candidates_of row repo)),
            tone_candidates_of row repo)
         else
           match (tone_candidates_of row repo).find?
               (fun c => c.pinyin_numbered = selected) with
           | some c =>
             (some ⟨c, "tone_insensitive_multi".toList⟩, none, tone_candidates_of row repo)
           | none =>
             (none,
              some ("disambiguation_selected_not_in_candidates:".toList ++ selected),
              tone_candidates_of row repo)
       | none =>
         (none, some (multiCandidatesNote (tone_candidates_of row repo)),
          tone_candidates_of row repo)) := by
  have hv : ¬ split_numbered_variants row.pinyin_numbered = [] := by
    intro h
    rw [tone_candidates_of, h, tone_insensitive_matches_nil_variants] at hlen
    simp at hlen
  have hg : ¬ groups_of row repo = [] := by
    intro h
    rw [tone_candidates_of, h, tone_insensitive_matches_nil_groups] at hlen
    simp at hlen
  rcases hcands : tone_candidates_of row repo with _ | ⟨c1, _ | ⟨c2, crest⟩⟩
  · rw [hcands] at hlen; simp at hlen
  · rw [hcands] at hlen; simp at hlen
  · simp only [resolve_from_repo]
    rw [if_neg hv]
    have hg2 : ¬ group_candidates (repo.entries_for_word (lookup_word row.word)) = [] := by
      simpa [groups_of] using hg
    rw [if_neg hg2]
    have hex2 : exact_match (group_candidates (repo.entries_for_word (lookup_word row.word)))
        (split_numbered_variants row.pinyin_numbered) = none := by
      simpa [groups_of] using hex
    rw [hex2]
    have hcands2 : tone_insensitive_matches
        (group_candidates (repo.entries_for_word (lookup_word row.word)))
        (split_numbered_variants row.pinyin_numbered) = c1 :: c2 :: crest := by
      simpa [tone_candidates_of, groups_of] using hcands
    rw [hcands2]

/-- An empty dictionary repository (parse of a comment-only file). -/
def emptyRepo : CedictRepository := { entries := [] }

/-! ## Claim theorems for the Resolution Engine -/

/-- **C2** (code bug evidence). The claim says a resolved row's written-form
field is built from the selected candidate group's written-form variants.
In this revision `CandidateGroup` (cedict/matcher.py) carries only
`pinyin_tokens` and `definition` — there is no written-form field at all —
yet `enrich_with_cedict` (stage3_enrich.py line 242) reads
`resolution.candidate.traditional_forms` for every resolved row. This
theorem shows the resolved branch is reached on the stage-3 unit-test
fixture row `行`/`xing2`, i.e. the attribute access is executed and fails,
contradicting the test's expectation `traditional_cc_cedict == "行"`. -/
theorem claim_C2_resolved_branch_reached :
    resolve_from_repo rowXing demoMain demoDmap =
      (some ⟨⟨["xing2".toList], "to walk".toList⟩, "exact".toList⟩, none, []) ∧
    resolve_row_with_patch rowXing demoMain demoPatch demoDmap =
      (some ⟨⟨["xing2".toList], "to walk".toList⟩, "exact".toList⟩, none, []) := by
  exact ⟨by decide, by decide⟩

/-- **C3**. If some slash-alternate of the row's numbered pinyin equals a
candidate tuple exactly, `_resolve_from_repo` returns that exact match with
branch `exact` (and empty tone-candidate list: tone-insensitive matching is
not consulted, by the structure of the waterfall), and the selected group's
tokens are the first matching alternate in source order. -/
theorem claim_C3_exact_precedence (row : NumberedRow) (repo : CedictRepository)
    (dmap : List ((List Char × List Char) × List Char))
    (v : List (List Char)) (g : CandidateGroup)
    (hv : v ∈ split_numbered_variants row.pinyin_numbered)
    (hg : g ∈ groups_of row repo) (htok : g.pinyin_tokens = v) :
    ∃ gSel, resolve_from_repo row repo dmap =
        (some ⟨gSel, "exact".toList⟩, none, []) ∧
      gSel ∈ groups_of row repo ∧
      (split_numbered_variants row.pinyin_numbered).find?
          (fun w => (groups_of row repo).any fun g0 => g0.pinyin_tokens = w)
        = some gSel.pinyin_tokens := by
  have hvne : ¬ split_numbered_variants row.pinyin_numbered = [] := by
    intro h; rw [h] at hv; exact List.not_mem_nil v hv
  have hgne : ¬ groups_of row repo = [] := by
    intro h; rw [h] at hg; exact List.not_mem_nil g hg
  obtain ⟨gSel, h1, h2, h3⟩ := exact_match_of_mem (groups_of row repo) _ v g hv hg htok
  refine ⟨gSel, ?_, h2, h3⟩
  simp only [resolve_from_repo]
  rw [if_neg hvne]
  have hgne2 : ¬ group_candidates (repo.entries_for_word (lookup_word row.word)) = [] := by
    simpa [groups_of] using hgne
  rw [if_neg hgne2]
  have h1b : exact_match (group_candidates (repo.entries_for_word (lookup_word row.word)))
      (split_numbered_variants row.pinyin_numbered) = some gSel := by
    simpa [groups_of] using h1
  rw [h1b]

/-- Witness for C3 on the fixture: row `行`/`xing2` against the main
dictionary has the exact candidate `xing2`, which the engine selects. -/
theorem claim_C3_exact_precedence_witness :
    ∃ gSel, resolve_from_repo rowXing demoMain demoDmap =
        (some ⟨gSel, "exact".toList⟩, none, []) ∧
      gSel ∈ groups_of rowXing demoMain ∧
      (split_numbered_variants rowXing.pinyin_numbered).find?
          (fun w => (groups_of rowXing demoMain).any fun g0 => g0.pinyin_tokens = w)
        = some gSel.pinyin_tokens :=
  claim_C3_exact_precedence rowXing demoMain demoDmap ["xing2".toList]
    ⟨["xing2".toList], "to walk".toList⟩ (by decide) (by decide) (by decide)

/-- **C4**. The patch dictionary is consulted exactly when the primary
waterfall ends with `no_word_entry` or `no_pinyin_match`: (1) for any other
primary outcome (exact/tone-insensitive resolutions, the tone-insensitive
multi-match failure, the bad-override failure, empty source pinyin) the
result is the primary result and is independent of the patch repository;
(2) in the gated case the identical waterfall (`_resolve_from_repo`) runs
against the patch repository and its resolution is adopted; (3) if the
patch rerun also ends in a gate note the primary note is kept. -/
theorem claim_C4_patch_gating :
    (∀ (row : NumberedRow) (main patch patch2 : CedictRepository)
        (dmap : List ((List Char × List Char) × List Char)),
      ¬ ((resolve_from_repo row main dmap).1 = none ∧
          patchGateNote (resolve_from_repo row main dmap).2.1) →
      resolve_row_with_patch row main patch dmap = resolve_from_repo row main dmap ∧
      resolve_row_with_patch row main patch dmap =
        resolve_row_with_patch row main patch2 dmap)
    ∧
    (∀ (row : NumberedRow) (main patch : CedictRepository)
        (dmap : List ((List Char × List Char) × List Char)) (res : Resolution),
      (resolve_from_repo row main dmap).1 = none →
      patchGateNote (resolve_from_repo row main dmap).2.1 →
      (resolve_from_repo row patch dmap).1 = some res →
      resolve_row_with_patch row main patch dmap =
        (some res, none, (resolve_from_repo row patch dmap).2.2))
    ∧
    (∀ (row : NumberedRow) (main patch : CedictRepository)
        (dmap : List ((List Char × List Char) × List Char)),
      (resolve_from_repo row main dmap).1 = none →
      patchGateNote (resolve_from_repo row main dmap).2.1 →
      (resolve_from_repo row patch dmap).1 = none →
      patchGateNote (resolve_from_repo row patch dmap).2.1 →
      resolve_row_with_patch row main patch dmap =
        (none, (resolve_from_repo row main dmap).2.1,
         (resolve_from_repo row main dmap).2.2)) := by
  refine ⟨?_, ?_, ?_⟩
  · intro row main patch patch2 dmap hno
    constructor
    · simp only [resolve_row_with_patch]
      rw [if_neg hno]
    · simp only [resolve_row_with_patch]
      rw [if_neg hno, if_neg hno]
  · intro row main patch dmap res h1 h2 h3
    simp only [resolve_row_with_patch]
    rw [if_pos ⟨h1, h2⟩, h3]
  · intro row main patch dmap h1 h2 h3 h4
    simp only [resolve_row_with_patch]
    rw [if_pos ⟨h1, h2⟩, h3]
    dsimp only
    rw [if_pos h4]

/-- Witness for C4 on the fixtures: `行` resolves exactly in the main
dictionary, so the patch repository is irrelevant; `龘` is absent from the
main dictionary and is adopted from the patch dictionary; with an empty
patch dictionary `龘` keeps the primary `no_word_entry` note. -/
theorem claim_C4_patch_gating_witness :
    (resolve_row_with_patch rowXing demoMain demoPatch demoDmap =
        resolve_from_repo rowXing demoMain demoDmap ∧
      resolve_row_with_patch rowXing demoMain demoPatch demoDmap =
        resolve_row_with_patch rowXing demoMain emptyRepo demoDmap) ∧
    resolve_row_with_patch rowDa demoMain demoPatch demoDmap =
      (some ⟨⟨["da2".toList], "test patch entry".toList⟩, "exact".toList⟩, none,
        (resolve_from_repo rowDa demoPatch demoDmap).2.2) ∧
    resolve_row_with_patch rowDa demoMain emptyRepo demoDmap =
      (none, (resolve_from_repo rowDa demoMain demoDmap).2.1,
       (resolve_from_repo rowDa demoMain demoDmap).2.2) :=
  ⟨claim_C4_patch_gating.1 rowXing demoMain demoPatch emptyRepo demoDmap (by decide),
   claim_C4_patch_gating.2.1 rowDa demoMain demoPatch demoDmap
     ⟨⟨["da2".toList], "test patch entry".toList⟩, "exact".toList⟩
     (by decide) (by decide) (by decide),
   claim_C4_patch_gating.2.2 rowDa demoMain emptyRepo demoDmap
     (by decide) (by decide) (by decide) (by decide)⟩

/-- **C5**. In the tone-insensitive multi-match case (no exact match, more
than one tone-insensitive candidate), the override table keyed by
`(word, pinyin_numbered)` decides: a present non-empty selection matching a
candidate's pinyin selects that candidate (the first such, in candidate
order); a present selection matching no candidate fails naming the bad
selection; an absent selection fails naming every candidate. -/
theorem claim_C5_multi_override (row : NumberedRow) (repo : CedictRepository)
    (dmap : List ((List Char × List Char) × List Char))
    (hex : exact_match (groups_of row repo)
      (split_numbered_variants row.pinyin_numbered) = none)
    (hlen : 1 < (tone_candidates_of row repo).length) :
    (∀ sel c, dictGet dmap (row.word, row.pinyin_numbered) = some sel → sel ≠ [] →
      (tone_candidates_of row repo).find? (fun c0 => c0.pinyin_numbered = sel) = some c →
      resolve_from_repo row repo dmap =
        (some ⟨c, "tone_insensitive_multi".toList⟩, none, tone_candidates_of row repo))
    ∧
    (∀ sel, dictGet dmap (row.word, row.pinyin_numbered) = some sel → sel ≠ [] →
      (∀ c ∈ tone_candidates_of row repo, c.pinyin_numbered ≠ sel) →
      resolve_from_repo row repo dmap =
        (none, some ("disambiguation_selected_not_in_candidates:".toList ++ sel),
         tone_candidates_of row repo))
    ∧
    (dictGet dmap (row.word, row.pinyin_numbered) = none →
      resolve_from_repo row repo dmap =
        (none, some (multiCandidatesNote (tone_candidates_of row repo)),
         tone_candidates_of row repo)) := by
  have hbranch := resolve_from_repo_multi_branch row repo dmap hex hlen
  refine ⟨?_, ?_, ?_⟩
  · intro sel c hget hne hfind
    rw [hbranch, hget]
    dsimp only
    rw [if_neg hne, hfind]
  · intro sel hget hne hnocand
    rw [hbranch, hget]
    dsimp only
    rw [if_neg hne]
    have hnone : (tone_candidates_of row repo).find?
        (fun c0 => decide (c0.pinyin_numbered = sel)) = none := by
      rw [List.find?_eq_none]
      intro c hc
      simpa using hnocand c hc
    rw [hnone]
  · intro hget
    rw [hbranch, hget]

/-- Witness for C5 on the fixture row `一`/`yi4` (candidates `yi1`, `yi2`):
the good override selects `yi1`; the bad override `yi9` fails naming it;
the empty table fails naming both candidates. -/
theorem claim_C5_multi_override_witness :
    resolve_from_repo rowYi demoMain demoDmap =
      (some ⟨⟨["yi1".toList], "one".toList⟩, "tone_insensitive_multi".toList⟩, none,
        tone_candidates_of rowYi demoMain) ∧
    resolve_from_repo rowYi demoMain demoBadDmap =
      (none, some ("disambiguation_selected_not_in_candidates:".toList ++ "yi9".toList),
        tone_candidates_of rowYi demoMain) ∧
    resolve_from_repo rowYi demoMain [] =
      (none, some (multiCandidatesNote (tone_candidates_of rowYi demoMain)),
        tone_candidates_of rowYi demoMain) :=
  ⟨(claim_C5_multi_override rowYi demoMain demoDmap (by decide) (by decide)).1
      "yi1".toList ⟨["yi1".toList], "one".toList⟩ (by decide) (by decide) (by decide),
   (claim_C5_multi_override rowYi demoMain demoBadDmap (by decide) (by decide)).2.1
      "yi9".toList (by decide) (by decide) (by decide),
   (claim_C5_multi_override rowYi demoMain [] (by decide) (by decide)).2.2 rfl⟩

/-- **C10**. A missing override-table file loads as the empty mapping with
no error — unlike the dictionary file, whose absence is a fatal
`FileNotFoundError` — and under the empty mapping every tone-insensitive
multi-match row fails naming all its candidates (rather than crashing at
load time). -/
theorem claim_C10_missing_override_file :
    disambiguation_load none = [] ∧
    (∀ (parse : List (List Char) → List CedictEntry),
      cedictEntriesFromFile (none : Option (List (List Char))) parse =
        Except.error "CC-CEDICT file not found".toList) ∧
    (∀ (row : NumberedRow) (repo : CedictRepository),
      exact_match (groups_of row repo)
        (split_numbered_variants row.pinyin_numbered) = none →
      1 < (tone_candidates_of row repo).length →
      resolve_from_repo row repo (disambiguation_load none) =
        (none, some (multiCandidatesNote (tone_candidates_of row repo)),
         tone_candidates_of row repo)) := by
  refine ⟨rfl, fun _ => rfl, ?_⟩
  intro row repo hex hlen
  have hbranch := resolve_from_repo_multi_branch row repo (disambiguation_load none) hex hlen
  have hget : dictGet (disambiguation_load none) (row.word, row.pinyin_numbered) = none := rfl
  rw [hbranch, hget]

/-- Witness for C10: the multi-match row `一`/`yi4` under the mapping loaded
from a missing file fails naming both candidates. -/
theorem claim_C10_missing_override_file_witness :
    disambiguation_load none = [] ∧
    resolve_from_repo rowYi demoMain (disambiguation_load none) =
      (none, some (multiCandidatesNote (tone_candidates_of rowYi demoMain)),
        tone_candidates_of rowYi demoMain) :=
  ⟨claim_C10_missing_override_file.1,
   claim_C10_missing_override_file.2.2 rowYi demoMain (by decide) (by decide)⟩

/-! ## Helper lemmas about the Segmentation & Alignment Engine -/

/-- A successfully numbered variant satisfies the round-trip law: the
engine's own check guarantees it before returning. -/
lemma number_variant_ok_round_trip (ctx : SegmentContext) (hanzi_chars : List Char)
    (v : List Char) (out : List (List Char))
    (h : number_variant ctx hanzi_chars v = .ok out) :
    (out.map fun syl => syl.dropLast).flatten =
      ((nonsep_tokens v).map normalize_token).flatten := by
  simp only [number_variant] at h
  by_cases ht : nonsep_tokens v = []
  · rw [if_pos ht] at h; cases h
  · rw [if_neg ht] at h
    rcases hseg : segment_pinyin_with_hanzi ctx (nonsep_tokens v) hanzi_chars with e | syls
    · rw [hseg] at h; cases h
    · rw [hseg] at h
      dsimp only at h
      by_cases heq : ((nonsep_tokens v).map normalize_token).flatten =
          (syls.map fun syl => syl.dropLast).flatten
      · rw [if_pos heq] at h
        cases h
        exact heq.symm
      · rw [if_neg heq] at h; cases h

/-- Lift the per-variant round-trip law through the variant loop. -/
lemma number_variants_ok_round_trip (ctx : SegmentContext) (hanzi_chars : List Char) :
    ∀ (vs : List (List Char)) (outs : List (List (List Char))),
      number_variants ctx hanzi_chars vs = .ok outs →
      List.Forall₂
        (fun v out => (out.map fun syl => syl.dropLast).flatten =
          ((nonsep_tokens v).map normalize_token).flatten) vs outs := by
  intro vs
  induction vs with
  | nil =>
    intro outs h
    simp only [number_variants] at h
    cases h
    exact List.Forall₂.nil
  | cons v vs ih =>
    intro outs h
    simp only [number_variants] at h
    rcases h1 : number_variant ctx hanzi_chars v with e | s
    · rw [h1] at h; cases h
    · rw [h1] at h
      rcases h2 : number_variants ctx hanzi_chars vs with e | rest
      · rw [h2] at h; cases h
      · rw [h2] at h
        cases h
        exact List.Forall₂.cons (number_variant_ok_round_trip ctx hanzi_chars v s h1)
          (ih rest h2)

/-- The `normalized_parts` accumulated by `_pinyin_numbered_basic`'s token
loop are exactly the tone-free letters of its non-separator tokens. -/
lemma basic_go_normParts (ctx : SegmentContext) :
    ∀ (tokens : List (List Char × Bool)) (numbered normParts outParts : List (List Char)),
      basic_go ctx tokens = .ok (numbered, normParts, outParts) →
      normParts = (tokens.filterMap fun tb =>
        if tb.2 then none else some tb.1).map normalize_token := by
  intro tokens
  induction tokens with
  | nil =>
    intro numbered normParts outParts h
    simp only [basic_go] at h
    cases h
    rfl
  | cons tb rest ih =>
    intro numbered normParts outParts h
    obtain ⟨token, isSep⟩ := tb
    cases isSep with
    | true =>
      simp only [basic_go, if_true] at h
      rcases hb : basic_go ctx rest with e | ⟨n2, p2, o2⟩
      · rw [hb] at h; cases h
      · rw [hb] at h
        dsimp only at h
        cases h
        simpa using ih _ _ _ hb
    | false =>
      simp only [basic_go, if_false] at h
      rcases hs : segment_syllables ctx ((parse_token token).map Prod.fst) with _ | syls
      · rw [hs] at h; cases h
      · rw [hs] at h
        dsimp only at h
        rcases hc : number_chunk syls (parse_token token) with e | chunk
        · rw [hc] at h; cases h
        · rw [hc] at h
          dsimp only at h
          rcases hb : basic_go ctx rest with e | ⟨n2, p2, o2⟩
          · rw [hb] at h; cases h
          · rw [hb] at h
            dsimp only at h
            cases h
            have h2 := ih _ _ _ hb
            simp [h2, normalize_token]

/-- The variant loop fails as soon as any variant fails. -/
lemma number_variants_error_of_mem (ctx : SegmentContext) (hanzi_chars : List Char) :
    ∀ (vs : List (List Char)) (v : List Char), v ∈ vs →
      (∃ ev, number_variant ctx hanzi_chars v = .error ev) →
      ∃ e, number_variants ctx hanzi_chars vs = .error e := by
  intro vs
  induction vs with
  | nil => intro v hv; exact absurd hv (List.not_mem_nil v)
  | cons w ws ih =>
    intro v hv hverr
    rcases hw : number_variant ctx hanzi_chars w with e | s
    · exact ⟨e, by simp only [number_variants]; rw [hw]⟩
    · rcases List.mem_cons.mp hv with h | h
      · obtain ⟨ev, hev⟩ := hverr
        rw [h] at hev
        rw [hev] at hw
        cases hw
      · obtain ⟨e, he⟩ := ih v h hverr
        exact ⟨e, by simp only [number_variants]; rw [hw, he]⟩

/-! ## Claim theorems for the Segmentation & Alignment Engine -/

/-- **C1**. Round-trip law: every row the engine numbers successfully
satisfies, per slash-variant on the Hanzi-aligned path and globally on the
basic path, that the concatenated tone-free letters of the produced
numbered syllables equal the concatenated tone-free letters of the
normalized input; a mismatch is answered with a fatal error instead of a
result (the equality below holds precisely because the engine checks it
before returning). -/
theorem claim_C1_round_trip :
    (∀ (ctx : SegmentContext) (hanzi_chars : List Char) (vs : List (List Char))
        (outs : List (List (List Char))),
      number_variants ctx hanzi_chars vs = .ok outs →
      List.Forall₂
        (fun v out => (out.map fun syl => syl.dropLast).flatten =
          ((nonsep_tokens v).map normalize_token).flatten) vs outs)
    ∧
    (∀ (ctx : SegmentContext) (pinyin : List Char)
        (numbered normParts outParts : List (List Char)),
      pinyin_numbered_basic_core ctx pinyin = .ok (numbered, normParts, outParts) →
      (numbered.map fun syl => syl.dropLast).flatten =
        ((nonsep_tokens (pinyin.map pyLower)).map normalize_token).flatten) := by
  constructor
  · exact fun ctx hanzi_chars vs outs h => number_variants_ok_round_trip ctx hanzi_chars vs outs h
  · intro ctx pinyin numbered normParts outParts h
    simp only [pinyin_numbered_basic_core] at h
    by_cases ht : tokenize_pinyin (pinyin.map pyLower) = []
    · rw [if_pos ht] at h; cases h
    · rw [if_neg ht] at h
      rcases hb : basic_go ctx (tokenize_pinyin (pinyin.map pyLower)) with e | ⟨n2, p2, o2⟩
      · rw [hb] at h; cases h
      · rw [hb] at h
        dsimp only at h
        by_cases heq : p2.flatten = (n2.map fun syl => syl.dropLast).flatten
        · rw [if_neg (by simpa using heq)] at h
          rcases hf : n2.find? (fun syl => ! letterRunB syl.dropLast) with _ | syl
          · rw [hf] at h
            dsimp only at h
            cases h
            rw [← heq, basic_go_normParts ctx _ _ _ _ hb]
            rfl
          · rw [hf] at h; cases h
        · rw [if_pos (by simpa using heq)] at h; cases h

/-- Witness for C1: the fixture rows `爸爸`/`bàba` (aligned path) and
`ài` (basic path) both satisfy the round-trip law. -/
theorem claim_C1_round_trip_witness :
    (number_variants demoCtx "爸爸".toList ["bàba".toList] =
        .ok [["ba4".toList, "ba5".toList]] ∧
      List.Forall₂
        (fun v out => (out.map fun syl => syl.dropLast).flatten =
          ((nonsep_tokens v).map normalize_token).flatten)
        ["bàba".toList] [["ba4".toList, "ba5".toList]]) ∧
    (pinyin_numbered_basic_core demoCtx "ài".toList =
        .ok (["ai4".toList], ["ai".toList], ["ai4".toList]) ∧
      (["ai4".toList].map fun syl => syl.dropLast).flatten =
        ((nonsep_tokens ("ài".toList.map pyLower)).map normalize_token).flatten) :=
  ⟨⟨by decide, claim_C1_round_trip.1 demoCtx "爸爸".toList ["bàba".toList]
      [["ba4".toList, "ba5".toList]] (by decide)⟩,
   ⟨by decide, claim_C1_round_trip.2 demoCtx "ài".toList
      ["ai4".toList] ["ai".toList] ["ai4".toList] (by decide)⟩⟩

/-- **C9** (counterexample). The claim says empty pinyin is a fatal
row-level error also for rows with Hanzi. But for a Hanzi row whose pinyin
splits into zero non-empty slash variants — the empty string being the
simplest case — the variant loop never runs and `pinyin_numbered` returns
an empty numbered string without raising. -/
theorem claim_C9_counterexample :
    extract_hanzi_chars "行".toList ≠ [] ∧
    pinyin_numbered demoCtx [] "行".toList = .ok [] ∧
    pinyin_numbered demoCtx "/".toList "行".toList = .ok [] := by
  exact ⟨by decide, by decide, by decide⟩

/-- **C9** (amended). Token-free pinyin is fatal in the engine exactly in
these cases: a row without Hanzi fails when tokenization (which keeps
preserved `/` separators as tokens) yields nothing; a Hanzi row fails when
some non-empty slash variant contains no syllable token. But a Hanzi row
whose pinyin yields no non-empty variant at all (empty, or only slashes and
whitespace) returns the empty numbered string without error — it is caught
only by the downstream Stage 2 schema validation. -/
theorem claim_C9_empty_pinyin :
    (∀ (ctx : SegmentContext) (pinyin word : List Char),
      extract_hanzi_chars word = [] →
      tokenize_pinyin (pinyin.map pyLower) = [] →
      pinyin_numbered ctx pinyin word = .error .empty_pinyin)
    ∧
    (∀ (ctx : SegmentContext) (pinyin word : List Char),
      extract_hanzi_chars word ≠ [] →
      (extract_hanzi_chars word).filter (fun c => (hanziLookup ctx c).isNone) = [] →
      (∃ v ∈ variants_of (pinyin.map pyLower), nonsep_tokens v = []) →
      ∃ e, pinyin_numbered ctx pinyin word = .error e)
    ∧
    (∀ (ctx : SegmentContext) (pinyin word : List Char),
      extract_hanzi_chars word ≠ [] →
      (extract_hanzi_chars word).filter (fun c => (hanziLookup ctx c).isNone) = [] →
      variants_of (pinyin.map pyLower) = [] →
      pinyin_numbered ctx pinyin word = .ok []) := by
  refine ⟨?_, ?_, ?_⟩
  · intro ctx pinyin word hw ht
    simp only [pinyin_numbered]
    rw [if_pos hw]
    simp only [pinyin_numbered_basic, pinyin_numbered_basic_core]
    rw [if_pos ht]
  · intro ctx pinyin word hw hcov hex
    obtain ⟨v, hv, hvtok⟩ := hex
    have hverr : ∃ ev, number_variant ctx (extract_hanzi_chars word) v = .error ev := by
      refine ⟨.empty_pinyin, ?_⟩
      simp only [number_variant]
      rw [if_pos hvtok]
    obtain ⟨e, he⟩ := number_variants_error_of_mem ctx (extract_hanzi_chars word)
      (variants_of (pinyin.map pyLower)) v hv hverr
    refine ⟨e, ?_⟩
    simp only [pinyin_numbered]
    rw [if_neg hw, if_neg (by simp [hcov]), he]
  · intro ctx pinyin word hw hcov hvar
    simp only [pinyin_numbered]
    rw [if_neg hw, if_neg (by simp [hcov]), hvar]
    rfl

/-- Witness for C9 (amended): a non-Hanzi row with dash-only pinyin fails;
a Hanzi row whose pinyin has a dash-only slash variant fails; a Hanzi row
whose pinyin is a single slash yields zero variants and returns the empty
string. -/
theorem claim_C9_empty_pinyin_witness :
    pinyin_numbered demoCtx "-".toList "abc".toList = .error .empty_pinyin ∧
    (∃ e, pinyin_numbered demoCtx "xíng/-".toList "行".toList = .error e) ∧
    pinyin_numbered demoCtx "/".toList "行".toList = .ok [] :=
  ⟨claim_C9_empty_pinyin.1 demoCtx "-".toList "abc".toList (by decide) (by decide),
   claim_C9_empty_pinyin.2.1 demoCtx "xíng/-".toList "行".toList (by decide) (by decide)
     ⟨"-".toList, by decide, by decide⟩,
   claim_C9_empty_pinyin.2.2 demoCtx "/".toList "行".toList (by decide) (by decide)
     (by decide)⟩

/-- **C6** (counterexample). The claim allows a non-candidate syllable only
for a bare-nasal interjection or for the only remaining character with no
dictionary coverage at all. But the code's bypass fires for every
one-character word regardless of coverage: `行` has dictionary candidates
`xing2`/`hang2`, the syllable base `ba` is neither a candidate for `行` nor
a bare-nasal interjection, and yet the engine accepts `ba` and returns
`ba5`. -/
theorem claim_C6_counterexample :
    pinyin_numbered demoCtx "ba".toList "行".toList = .ok "ba5".toList ∧
    "ba".toList ∉ EXTRA_VALID_SYLLABLES ∧
    "ba".toList ∉ allowedBases demoCtx '行' ∧
    hanziLookup demoCtx '行' = some ["xing2".toList, "hang2".toList] := by
  exact ⟨by decide, by decide, by decide, by decide⟩

/-- **C6** (amended). During constrained segmentation a syllable whose base
is not among the current character's candidates is accepted only when it is
a bare-nasal interjection, or when the whole word consists of a single
character (the filter is bypassed for one-character words regardless of
dictionary coverage), or through the erhua split (which checks the stem and
`r5` instead); in every other situation the syllable is skipped: the loop
step for it equals the loop step without it. -/
theorem claim_C6_candidate_filter (ctx : SegmentContext) (hanzi_chars : List Char)
    (recur : List (Char × Nat) → List Char → List (List (List Char) × List Char))
    (s : List Char) (rest : List (List Char)) (rem : List (Char × Nat))
    (c : Char) (hs : List Char) (acc : List (List (List Char) × List Char))
    (hextra : s ∉ EXTRA_VALID_SYLLABLES)
    (hsingle : hanzi_chars.length ≠ 1)
    (hbase : s ∉ allowedBases ctx c)
    (herhua : ¬ (s.getLast? = some 'r' ∧ hs.head? = some '儿' ∧
      (s.dropLast ≠ [] ∧ s.dropLast ∈ allowedBases ctx c ∧
        r5syl ∈ allowedSyllables ctx '儿'))) :
    segment_token_go ctx hanzi_chars recur (s :: rest) rem c hs acc =
      segment_token_go ctx hanzi_chars recur rest rem c hs acc := by
  simp only [segment_token_go]
  cases hp : s.isPrefixOf (rem.map Prod.fst)
  · simp [hp]
  · simp only [hp, Bool.not_true]
    rw [if_neg (by simp)]
    rcases ht : syllableTone ((rem.take s.length).map Prod.snd) with _ | tone
    · rfl
    · dsimp only
      by_cases hg : s.getLast? = some 'r' ∧ hs.head? = some '儿'
      · have hposs : ¬ (s.dropLast ≠ [] ∧ s.dropLast ∈ allowedBases ctx c ∧
            r5syl ∈ allowedSyllables ctx '儿') := fun hq => herhua ⟨hg.1, hg.2, hq⟩
        rw [if_pos hg, if_neg hposs]
        dsimp only
        rw [if_neg hextra, if_neg (fun hq => hsingle hq.1), if_neg hbase]
      · rw [if_neg hg]
        dsimp only
        rw [if_neg hextra, if_neg (fun hq => hsingle hq.1), if_neg hbase]

/-- Witness for C6 (amended): in the two-character fixture word `爸爸`, the
non-candidate syllable `ai` is skipped by the loop. -/
theorem claim_C6_candidate_filter_witness :
    segment_token_go demoCtx "爸爸".toList
        (segment_token_f demoCtx "爸爸".toList 4)
        ["ai".toList, "ba".toList] (parse_token "baba".toList) '爸'
        ['爸'] [] =
      segment_token_go demoCtx "爸爸".toList
        (segment_token_f demoCtx "爸爸".toList 4)
        ["ba".toList] (parse_token "baba".toList) '爸' ['爸'] [] :=
  claim_C6_candidate_filter demoCtx "爸爸".toList
    (segment_token_f demoCtx "爸爸".toList 4) "ai".toList ["ba".toList]
    (parse_token "baba".toList) '爸' ['爸'] []
    (by decide) (by decide) (by decide) (by decide)

/-- **C7**. Erhua split preference: when a matched syllable ends in `r`, the
next character is the diminutive suffix `儿`, the stem is a candidate base
for the current character and `r5` a candidate for `儿`, the loop step
returns the split solutions (stem with its tone plus synthetic `r5`),
consuming two characters (`hs.tail`), without consulting any further
syllable; and when the valid split admits no complete continuation the step
returns only what was already accumulated (falling back to the unsplit
one-character branches only from an empty accumulator). -/
theorem claim_C7_erhua_split_preference (ctx : SegmentContext)
    (hanzi_chars : List Char)
    (recur : List (Char × Nat) → List Char → List (List (List Char) × List Char))
    (s : List Char) (rest : List (List Char)) (rem : List (Char × Nat))
    (c : Char) (hs : List Char) (acc : List (List (List Char) × List Char))
    (tone : Nat)
    (hpre : s.isPrefixOf (rem.map Prod.fst) = true)
    (htone : syllableTone ((rem.take s.length).map Prod.snd) = some tone)
    (hr : s.getLast? = some 'r') (her : hs.head? = some '儿')
    (hposs : s.dropLast ≠ [] ∧ s.dropLast ∈ allowedBases ctx c ∧
      r5syl ∈ allowedSyllables ctx '儿') :
    (recur (rem.drop s.length) hs.tail ≠ [] →
      segment_token_go ctx hanzi_chars recur (s :: rest) rem c hs acc =
        (acc ++ (recur (rem.drop s.length) hs.tail).map fun pr =>
          ((s.dropLast ++ [toneChar tone]) :: r5syl :: pr.1, pr.2)).take 2)
    ∧
    (recur (rem.drop s.length) hs.tail = [] → acc ≠ [] →
      segment_token_go ctx hanzi_chars recur (s :: rest) rem c hs acc = acc) := by
  constructor
  · intro hsub
    simp only [segment_token_go, hpre, Bool.not_true]
    rw [if_neg (by simp), htone]
    dsimp only
    rw [if_pos ⟨hr, her⟩, if_pos hposs, if_pos hsub]
  · intro hsub hacc
    simp only [segment_token_go, hpre, Bool.not_true]
    rw [if_neg (by simp), htone]
    dsimp only
    rw [if_pos ⟨hr, her⟩, if_pos hposs, hsub]
    rw [if_neg (by simp), if_pos hacc]

/-- Witness for C7 on the erhua fixture `花儿`/`huār`: the matched syllable
`huar` splits into `hua1` plus synthetic `r5`, consuming both characters. -/
theorem claim_C7_erhua_split_preference_witness :
    segment_token_go demoCtx "花儿".toList
        (segment_token_f demoCtx "花儿".toList 6)
        ["huar".toList] (parse_token "huār".toList) '花' ['儿'] [] =
      (([] : List (List (List Char) × List Char)) ++
        (segment_token_f demoCtx "花儿".toList 6
            ((parse_token "huār".toList).drop "huar".toList.length)
            (['儿'].tail)).map fun pr =>
          (("huar".toList.dropLast ++ [toneChar 1]) :: r5syl :: pr.1, pr.2)).take 2 :=
  (claim_C7_erhua_split_preference demoCtx "花儿".toList
    (segment_token_f demoCtx "花儿".toList 6) "huar".toList []
    (parse_token "huār".toList) '花' ['儿'] [] 1
    (by decide) (by decide) (by decide) (by decide)
    ⟨by decide, by decide, by decide⟩).1 (by decide)

/-- **C8**. For a variant with more than one complete segmentation, the
engine filters tone-insensitively against `word_syllable_map`: it returns a
result exactly when one solution survives the filter, and every error it
raises instead is an ambiguity error whose listed sequences include all
survivors — and are exactly the survivors whenever at least two survive
(with zero survivors the unfiltered enumerated solutions are listed). -/
theorem claim_C8_ambiguous_filter (ctx : SegmentContext)
    (tokens : List (List Char)) (hanzi_chars : List Char)
    (hmulti : 1 < (align_tokens ctx hanzi_chars tokens hanzi_chars).length) :
    (∀ s, segment_pinyin_with_hanzi ctx tokens hanzi_chars = .ok s ↔
      (align_tokens ctx hanzi_chars tokens hanzi_chars).filter
        (survivesB ctx hanzi_chars) = [s])
    ∧
    (∀ l, segment_pinyin_with_hanzi ctx tokens hanzi_chars = .error (.ambiguous l) →
      ((align_tokens ctx hanzi_chars tokens hanzi_chars).filter
        (survivesB ctx hanzi_chars)) ⊆ l ∧
      (2 ≤ ((align_tokens ctx hanzi_chars tokens hanzi_chars).filter
          (survivesB ctx hanzi_chars)).length →
        l = (align_tokens ctx hanzi_chars tokens hanzi_chars).filter
          (survivesB ctx hanzi_chars)))
    ∧
    ((∀ s, (align_tokens ctx hanzi_chars tokens hanzi_chars).filter
        (survivesB ctx hanzi_chars) ≠ [s]) →
      ∃ l, segment_pinyin_with_hanzi ctx tokens hanzi_chars = .error (.ambiguous l)) := by
  rcases hsols : align_tokens ctx hanzi_chars tokens hanzi_chars with _ | ⟨s1, _ | ⟨s2, srest⟩⟩
  · rw [hsols] at hmulti; simp at hmulti
  · rw [hsols] at hmulti; simp at hmulti
  · simp only [segment_pinyin_with_hanzi]
    rw [hsols]
    dsimp only
    rcases hw : wordLookup ctx hanzi_chars with _ | cands
    · have hfilt : (s1 :: s2 :: srest).filter (survivesB ctx hanzi_chars) = [] := by
        rw [List.filter_eq_nil_iff]
        intro sol _
        simp [survivesB, hw]
      rw [hfilt]
      refine ⟨?_, ?_, ?_⟩
      · intro s
        constructor
        · intro h; cases h
        · intro h; cases h
      · intro l hl
        cases hl
        exact ⟨List.nil_subset _, fun h2 => by simp at h2⟩
      · intro _
        exact ⟨s1 :: s2 :: srest, rfl⟩
    · dsimp only
      by_cases hc : cands = []
      · rw [if_pos hc]
        have hfilt : (s1 :: s2 :: srest).filter (survivesB ctx hanzi_chars) = [] := by
          rw [List.filter_eq_nil_iff]
          intro sol _
          simp [survivesB, hw, hc]
        rw [hfilt]
        refine ⟨?_, ?_, ?_⟩
        · intro s
          constructor
          · intro h; cases h
          · intro h; cases h
        · intro l hl
          cases hl
          exact ⟨List.nil_subset _, fun h2 => by simp at h2⟩
        · intro _
          exact ⟨s1 :: s2 :: srest, rfl⟩
      · rw [if_neg hc]
        have hfiltEq : (s1 :: s2 :: srest).filter (survivesB ctx hanzi_chars) =
            (s1 :: s2 :: srest).filter
              (fun sol => decide ((sol.map fun syl => syl.dropLast) ∈
                cands.map fun seq => seq.map fun syl => syl.dropLast)) := by
          apply List.filter_congr
          intro sol _
          simp only [survivesB, hw]
          rw [if_neg hc]
        rw [hfiltEq]
        rcases hf : (s1 :: s2 :: srest).filter
            (fun sol => decide ((sol.map fun syl => syl.dropLast) ∈
              cands.map fun seq => seq.map fun syl => syl.dropLast)) with _ | ⟨f1, _ | ⟨f2, fr⟩⟩
        · rw [hf]
          refine ⟨?_, ?_, ?_⟩
          · intro s
            constructor
            · intro h; cases h
            · intro h; cases h
          · intro l hl
            cases hl
            exact ⟨List.nil_subset _, fun h2 => by simp at h2⟩
          · intro _
            exact ⟨s1 :: s2 :: srest, rfl⟩
        · rw [hf]
          refine ⟨?_, ?_, ?_⟩
          · intro s
            constructor
            · intro h; cases h; rfl
            · intro h; cases h; rfl
          · intro l hl; cases hl
          · intro hno
            exact absurd rfl (hno f1)
        · rw [hf]
          refine ⟨?_, ?_, ?_⟩
          · intro s
            constructor
            · intro h; cases h
            · intro h; cases h
          · intro l hl
            cases hl
            exact ⟨fun x hx => hx, fun _ => rfl⟩
          · intro _
            exact ⟨f1 :: f2 :: fr, rfl⟩

/-- Witness for C8 on the ambiguous fixture `妈妈`/`mama`: with the
whole-word entry `ma1 ma1` exactly one solution survives and is returned;
without any whole-word entry no solution survives and the engine raises the
ambiguity error. -/
theorem claim_C8_ambiguous_filter_witness :
    segment_pinyin_with_hanzi ambCtx ["mama".toList] "妈妈".toList =
      .ok ["ma5".toList, "ma5".toList] ∧
    (∃ l, segment_pinyin_with_hanzi ambCtxNoWord ["mama".toList] "妈妈".toList =
      .error (.ambiguous l)) :=
  ⟨((claim_C8_ambiguous_filter ambCtx ["mama".toList] "妈妈".toList
      (by decide)).1 ["ma5".toList, "ma5".toList]).mpr (by decide),
   (claim_C8_ambiguous_filter ambCtxNoWord ["mama".toList] "妈妈".toList
      (by decide)).2.2 (by
        have h0 : (align_tokens ambCtxNoWord "妈妈".toList ["mama".toList]
            "妈妈".toList).filter (survivesB ambCtxNoWord "妈妈".toList) = [] := by decide
        intro s
        rw [h0]
        exact fun h => List.cons_ne_nil s [] h.symm)⟩

end Hsk

